import Mathlib

/-!
Verification of the session-recording playback engine (`sessionPlayer`).

The playback primitive `playRange(from, to)` runs a goroutine that walks the
recorded event stream from index 0, applies the pacing delay only from index
`from` on, and stops (exclusively) at `to`, where a `to` argument of `0` means
the whole stream.  We embed the player's data model and that loop as pure
functions: the goroutine's interaction with `stopRequested()` is modelled by a
schedule `stop : Nat → Bool` giving the answer of the check at each loop index,
and the rendered output is collected as a trace of `RenderStep`s.
-/

namespace Teleport

/-- Player states, mirroring the constants `stateStopped`, `stateStopping`,
`statePlaying` (in that order). -/
inductive PState where
  | stopped
  | stopping
  | playing
deriving DecidableEq, Repr

/-- One recorded session event, as the fields the player reads from
`events.EventFields`: the event-type string (`GetString(events.EventType)`),
the millisecond timestamp (`GetInt("ms")`), the byte range of a print event
(`GetInt("offset")`, `GetInt("bytes")`), the `"width:height"` string of a
resize event (`GetString("size")`), and the wall-clock label
(`GetString("time")`). -/
structure Event where
  eventType : String
  ms : Int
  offset : Nat
  bytes : Nat
  size : String
  time : String
deriving DecidableEq, Repr

/-- Default used for (unreachable) out-of-bounds stream access. -/
def defaultEvent : Event := ⟨"", 0, 0, 0, "", ""⟩

/-- The value of `time.Millisecond`: 10^6 nanoseconds (`time.Duration` counts
nanoseconds). -/
def millisecond : Int := 1000000

/-- The value of `time.Second` in nanoseconds. -/
def second : Int := 1000000000

/-- The delay-smoothing `switch` inside `applyDelay`, first matching case
wins: `delay < 10ms → 0`; `250ms < delay < 500ms → 250ms`;
`500ms < delay < 1s → 500ms`; `delay > 1s → 1s`; otherwise unchanged. -/
def quantize (delay : Int) : Int :=
  if delay < 10 * millisecond then 0
  else if 250 * millisecond < delay ∧ delay < 500 * millisecond then 250 * millisecond
  else if 500 * millisecond < delay ∧ delay < second then 500 * millisecond
  else if second < delay then second
  else delay

/-- The `applyDelay` method: from the previous applied timestamp and the
current event it computes `eventTime = ms * time.Millisecond`, sleeps for
`quantize (eventTime - prev)`, and stores the raw `eventTime` back into
`previousTimestamp`.  Returned as (slept duration, new previous timestamp). -/
def applyDelay (prev : Int) (e : Event) : Int × Int :=
  let eventTime := e.ms * millisecond
  (quantize (eventTime - prev), eventTime)

/-- Whether a resize `size` string splits on `":"` into exactly two parts
(the `len(parts) != 2` check in the resize branch). -/
def wellFormedSize (s : String) : Bool := (s.splitOn ":").length == 2

/-- Whether the loop body dispatches this event, i.e. reaches the trailing
`p.position = i` assignment rather than `continue`: print events always do,
resize / session-start events do iff their size string is well formed, all
other event types are skipped. -/
def dispatched (e : Event) : Bool :=
  if e.eventType == "print" then true
  else if e.eventType == "resize" || e.eventType == "session.start" then
    wellFormedSize e.size
  else false

/-- One observable action of a loop iteration: a print event writes the
stream slice `[offset, offset+bytes)` after an optional pacing sleep, a
well-formed resize emits a resize control sequence with the parsed
width/height, everything else is skipped via `continue`. -/
inductive RenderStep where
  | printed : Nat → Option Int → Nat → Nat → RenderStep
  | resized : Nat → String → String → RenderStep
  | skipped : Nat → RenderStep
deriving DecidableEq, Repr

/-- The loop index an observed step belongs to. -/
def stepIdx : RenderStep → Nat
  | .printed i _ _ _ => i
  | .resized i _ _ => i
  | .skipped i => i

/-- The pacing delay slept before the step, if any. -/
def stepDelay : RenderStep → Option Int
  | .printed _ d _ _ => d
  | .resized _ _ _ => none
  | .skipped _ => none

/-- Whether the step rendered a print event. -/
def isPrint : RenderStep → Bool
  | .printed _ _ _ _ => true
  | .resized _ _ _ => false
  | .skipped _ => false

/-- A pacing delay is slept at a step exactly when the step is a print event
whose index has reached the `from` bound. -/
def delayOk (frm : Int) (s : RenderStep) : Prop :=
  (stepDelay s).isSome = true ↔ (isPrint s = true ∧ frm ≤ (stepIdx s : Int))

/-- Result of one loop-body iteration: the observed step, the updated
`prev` timestamp and the updated `position` field. -/
structure StepOut where
  step : RenderStep
  prev : Int
  pos : Int
deriving DecidableEq, Repr

/-- The body of the playback loop at index `i` (after the stop check), the
`switch e.GetString(events.EventType)` dispatch: a print event sleeps the
paced delay when `i >= from` and writes its byte slice; a resize or
session-start event with a well-formed `"width:height"` size resizes the
terminal; any other case is `continue`.  Dispatched events set
`position = i`. -/
def playStep (frm : Int) (i : Nat) (e : Event) (prev pos : Int) : StepOut :=
  if e.eventType == "print" then
    if frm ≤ (i : Int) then
      let d := applyDelay prev e
      ⟨.printed i (some d.1) e.offset e.bytes, d.2, (i : Int)⟩
    else
      ⟨.printed i none e.offset e.bytes, prev, (i : Int)⟩
  else if e.eventType == "resize" || e.eventType == "session.start" then
    let parts := e.size.splitOn ":"
    if parts.length == 2 then
      ⟨.resized i (parts.getD 0 "") (parts.getD 1 ""), prev, (i : Int)⟩
    else ⟨.skipped i, prev, pos⟩
  else ⟨.skipped i, prev, pos⟩

/-- Outcome of the playback goroutine's loop: the final `position` field, the
value of the loop index `i` on exit, whether the loop returned early through
the `stopRequested()` check, and the trace of observed steps. -/
structure LoopResult where
  pos : Int
  finalI : Nat
  early : Bool
  trace : List RenderStep
deriving DecidableEq, Repr

/-- The playback goroutine's `for i = 0; i < to; i++` loop, with `remaining`
iterations left, current index `i`, current `prev` timestamp and current
`position` field.  Each iteration first polls `stopRequested()` (the `stop`
schedule) and returns early when it answers true, otherwise runs the loop
body `playStep`. -/
def playLoop (evs : List Event) (stop : Nat → Bool) (frm : Int) :
    Nat → Nat → Int → Int → LoopResult
  | 0, i, _prev, pos => ⟨pos, i, false, []⟩
  | remaining + 1, i, prev, pos =>
    if stop i then ⟨pos, i, true, []⟩
    else
      let s := playStep frm i (evs.getD i defaultEvent) prev pos
      let rest := playLoop evs stop frm remaining (i + 1) s.prev s.pos
      ⟨rest.pos, rest.finalI, rest.early, s.step :: rest.trace⟩

/-- The stop schedule of an uninterrupted run: `stopRequested()` always
answers false. -/
def noStop : Nat → Bool := fun _ => false

/-- The `to == 0` normalization at the top of `playRange`: a `to` argument of
`0` means the length of the event stream. -/
def effectiveTo (len : Nat) (toArg : Int) : Int :=
  if toArg = 0 then (len : Int) else toArg

/-- Outcome of one `playRange(from, to)` invocation: whether the playback
goroutine was launched, the normalized stop bound, the loop outcome, whether
this run called `notifyStopped()`, and the `position` and `state` fields once
the run has fully settled. -/
structure RunOutcome where
  launched : Bool
  toEff : Int
  loop : LoopResult
  firedNow : Bool
  posAfter : Int
  stateAfter : PState
deriving DecidableEq, Repr

/-- The `playRange(from, to)` primitive, run to completion against a stop
schedule.  If `to` exceeds the stream length or `from` is negative, no
goroutine is launched and the guard branch runs
`p.Lock(); p.setState(stateStopped); p.Unlock(); return` — the state update
modelled here is the one of an execution in which the calling goroutine does
not already hold `p.Mutex`; see `playRangeLocked` for the caller-level
behavior, where a held lock makes the guard's `p.Lock()` self-deadlock
before reaching `setState`.  Otherwise `to = 0` is normalized to the stream
length, the goroutine walks the loop from index 0 with `prev = 0`, the
deferred handler sets the state to `Stopped`, and `notifyStopped()` is
called exactly when the loop exited normally with
`i == len(sessionEvents)`. -/
def playRange (evs : List Event) (frm toArg : Int) (stop : Nat → Bool)
    (pos0 : Int) : RunOutcome :=
  if toArg > (evs.length : Int) ∨ frm < 0 then
    ⟨false, toArg, ⟨pos0, 0, false, []⟩, false, pos0, .stopped⟩
  else
    let t := effectiveTo evs.length toArg
    let lr := playLoop evs stop frm t.toNat 0 0 pos0
    ⟨true, t, lr, !lr.early && (lr.finalI == evs.length), lr.pos, .stopped⟩

/-- Outcome of a `playRange` invocation as seen by its calling goroutine:
either that goroutine blocks forever in the guard branch's `p.Lock()`
(a self-deadlock of the non-reentrant `sync.Mutex`), or the invocation
returns with the usual run outcome. -/
inductive LockedOutcome where
  | deadlock : LockedOutcome
  | done : RunOutcome → LockedOutcome
deriving DecidableEq, Repr

/-- The `playRange(from, to)` call as executed on the caller's goroutine,
with `lockHeld` telling whether that goroutine already holds `p.Mutex` —
true at every call site inside `Rewind`, `Forward` and `TogglePause`, which
lock on entry and hold the lock for the whole method body.  The guard branch
runs `p.Lock()` on the calling goroutine, so with the lock already held the
call deadlocks there and never reaches `setState(stateStopped)`; the
launched branch locks only inside the new goroutine, which proceeds once the
caller releases the mutex, so the call itself returns. -/
def playRangeLocked (evs : List Event) (frm toArg : Int) (stop : Nat → Bool)
    (pos0 : Int) (lockHeld : Bool) : LockedOutcome :=
  if toArg > (evs.length : Int) ∨ frm < 0 then
    if lockHeld then .deadlock
    else .done ⟨false, toArg, ⟨pos0, 0, false, []⟩, false, pos0, .stopped⟩
  else .done (playRange evs frm toArg stop pos0)

/-- The `notifyStopped` method over the `(fired, closes)` state of the
`stopOnce : sync.Once` guard and the number of times `close(p.stopC)` has
actually run: the closure is executed only if it never ran before. -/
def notifyStopped (p : Bool × Nat) : Bool × Nat :=
  if p.1 then p else (true, p.2 + 1)

/-- `n` successive calls of `notifyStopped` on the once-guard state. -/
def notifyIter : Nat → Bool × Nat → Bool × Nat
  | 0, p => p
  | n + 1, p => notifyIter n (notifyStopped p)

/-- The mutable per-player fields the claims are about: the state and
position, plus the once-guard flag and the number of times the completion
channel `stopC` has been closed. -/
structure Player where
  state : PState
  position : Int
  fired : Bool
  closes : Nat
deriving DecidableEq, Repr

/-- A whole `playRange` invocation at the player level: run the goroutine
against the stop schedule and, when the run reached the end of the stream,
let its deferred `notifyStopped()` hit the once-guard. -/
def doPlayRange (evs : List Event) (p : Player) (frm toArg : Int)
    (stop : Nat → Bool) : Player :=
  let r := playRange evs frm toArg stop p.position
  if r.launched && r.firedNow then
    let n := notifyStopped (p.fired, p.closes)
    ⟨.stopped, r.posAfter, n.1, n.2⟩
  else
    ⟨.stopped, r.posAfter, p.fired, p.closes⟩

/-- The primitive actions a control method performs, in order: a
`setState(s)` call, a `waitUntil(s)` block, or a `playRange(from, to)`
launch. -/
inductive PlayerOp where
  | setStateOp : PState → PlayerOp
  | waitUntilOp : PState → PlayerOp
  | playRangeOp : Int → Int → PlayerOp
deriving DecidableEq, Repr

/-- The `Play()` method: a single `playRange(0, 0)`. -/
def Play : List PlayerOp := [.playRangeOp 0 0]

/-- The `TogglePause()` method as the sequence of primitive actions it
performs given the state and position it observes under the lock. -/
def TogglePause (st : PState) (pos : Int) : List PlayerOp :=
  if st = .playing then [.setStateOp .stopping, .waitUntilOp .stopped]
  else [.playRangeOp (pos + 1) 0, .waitUntilOp .playing]

/-- The `Rewind()` method as the sequence of primitive actions it performs
given the state and position it observes under the lock. -/
def Rewind (st : PState) (pos : Int) : List PlayerOp :=
  (if st ≠ .stopped then [PlayerOp.setStateOp .stopping, PlayerOp.waitUntilOp .stopped]
   else []) ++
  (if pos > 0 then [PlayerOp.playRangeOp (pos - 1) pos] else [])

/-- The `Forward()` method as the sequence of primitive actions it performs
given the state, position and stream length it observes under the lock. -/
def Forward (st : PState) (pos : Int) (len : Nat) : List PlayerOp :=
  (if st ≠ .stopped then [PlayerOp.setStateOp .stopping, PlayerOp.waitUntilOp .stopped]
   else []) ++
  (if pos < (len : Int) then [PlayerOp.playRangeOp (pos + 2) (pos + 2)] else [])

/-- The `position` field left by `remaining` dispatch-only iterations from
index `i`: each dispatched event overwrites it with its index. -/
def lastDispatched (evs : List Event) : Nat → Nat → Int → Int
  | 0, _i, pos => pos
  | remaining + 1, i, pos =>
    lastDispatched evs remaining (i + 1)
      (if dispatched (evs.getD i defaultEvent) then (i : Int) else pos)

/-- A one-event stream whose single event has an unrecognized type, so the
loop's `default: continue` branch skips it. -/
def evC5 : List Event := [⟨"", 0, 0, 0, "", ""⟩]

/-- A one-event stream of a single print event. -/
def evC5w : List Event := [⟨"print", 100, 0, 0, "", ""⟩]

/-- A stream whose first event has an unrecognized type and whose second is a
print event. -/
def evC7 : List Event := [⟨"", 0, 0, 0, "", ""⟩, ⟨"print", 5, 0, 0, "", ""⟩]

/-- A two-event stream of print events. -/
def evC7w : List Event := [⟨"print", 1, 0, 0, "", ""⟩, ⟨"print", 2, 0, 0, "", ""⟩]

/-- A print event recorded 750 ms into the session. -/
def evC3 : Event := ⟨"print", 750, 0, 0, "", ""⟩

/-- A print event recorded 100 ms into the session. -/
def evC9 : Event := ⟨"print", 100, 0, 0, "", ""⟩

/-- A two-event stream of print events at 100 ms and 200 ms. -/
def evC10 : List Event := [⟨"print", 100, 0, 2, "", ""⟩, ⟨"print", 200, 2, 3, "", ""⟩]

/-- A three-event stream: print, unrecognized, print. -/
def evC1 : List Event :=
  [⟨"print", 100, 0, 3, "", ""⟩, ⟨"", 0, 0, 0, "", ""⟩, ⟨"print", 200, 3, 2, "", ""⟩]

/-- The loop body updates `position` to the current index exactly when the
event is dispatched. -/
theorem playStep_pos (frm : Int) (i : Nat) (e : Event) (prev pos : Int) :
    (playStep frm i e prev pos).pos = if dispatched e then (i : Int) else pos := by
  simp only [playStep, dispatched, wellFormedSize]
  split_ifs <;> simp_all

/-- The step observed by the loop body carries the loop index. -/
theorem playStep_idx (frm : Int) (i : Nat) (e : Event) (prev pos : Int) :
    stepIdx (playStep frm i e prev pos).step = i := by
  simp only [playStep]
  split_ifs <;> rfl

/-- The loop body sleeps a pacing delay exactly for print events whose index
has reached `from`. -/
theorem playStep_delayOk (frm : Int) (i : Nat) (e : Event) (prev pos : Int) :
    delayOk frm (playStep frm i e prev pos).step := by
  simp only [playStep]
  split_ifs with h1 h2 h3 h4 <;>
    simp_all [delayOk, stepDelay, isPrint, stepIdx]

/-- An uninterrupted loop never returns through the stop check. -/
theorem playLoop_noStop_early (evs : List Event) (frm : Int) (r i : Nat)
    (prev pos : Int) :
    (playLoop evs noStop frm r i prev pos).early = false := by
  induction r generalizing i prev pos with
  | zero => rfl
  | succ n ih => simp [playLoop, noStop, ih]

/-- An uninterrupted loop exits with its index advanced through all the
remaining iterations. -/
theorem playLoop_noStop_finalI (evs : List Event) (frm : Int) (r i : Nat)
    (prev pos : Int) :
    (playLoop evs noStop frm r i prev pos).finalI = i + r := by
  induction r generalizing i prev pos with
  | zero => rfl
  | succ n ih =>
    simp only [playLoop, noStop, Bool.false_eq_true, if_false]
    rw [ih]; omega

/-- An uninterrupted loop observes exactly the indices `i, i+1, ...` of its
remaining iterations, in order. -/
theorem playLoop_noStop_idx (evs : List Event) (frm : Int) (r i : Nat)
    (prev pos : Int) :
    (playLoop evs noStop frm r i prev pos).trace.map stepIdx
      = List.range' i r := by
  induction r generalizing i prev pos with
  | zero => rfl
  | succ n ih =>
    simp [playLoop, noStop, List.range'_succ, playStep_idx, ih]

/-- The `position` field left by an uninterrupted loop is the one computed by
`lastDispatched`. -/
theorem playLoop_noStop_pos (evs : List Event) (frm : Int) (r i : Nat)
    (prev pos : Int) :
    (playLoop evs noStop frm r i prev pos).pos = lastDispatched evs r i pos := by
  induction r generalizing i prev pos with
  | zero => rfl
  | succ n ih =>
    simp only [playLoop, noStop, Bool.false_eq_true, if_false, lastDispatched]
    rw [ih, playStep_pos]

/-- Every step of any loop run (interrupted or not) satisfies the pacing
gate: a delay is slept exactly at print events at index `from` or later. -/
theorem playLoop_delayOk (evs : List Event) (stop : Nat → Bool) (frm : Int)
    (r i : Nat) (prev pos : Int) :
    ∀ s ∈ (playLoop evs stop frm r i prev pos).trace, delayOk frm s := by
  induction r generalizing i prev pos with
  | zero => intro s hs; simp [playLoop] at hs
  | succ n ih =>
    intro s hs
    simp only [playLoop] at hs
    by_cases h : stop i
    · simp [h] at hs
    · simp only [h, Bool.false_eq_true, if_false, List.mem_cons] at hs
      rcases hs with rfl | hs
      · exact playStep_delayOk frm i _ prev pos
      · exact ih (i + 1) _ _ s hs

/-- The loop index on exit never exceeds the requested iteration count. -/
theorem playLoop_finalI_le (evs : List Event) (stop : Nat → Bool) (frm : Int)
    (r i : Nat) (prev pos : Int) :
    (playLoop evs stop frm r i prev pos).finalI ≤ i + r := by
  induction r generalizing i prev pos with
  | zero => simp [playLoop]
  | succ n ih =>
    simp only [playLoop]
    by_cases h : stop i
    · simp [h]
    · simp only [h, Bool.false_eq_true, if_false]
      have := ih (i + 1) (playStep frm i (evs.getD i defaultEvent) prev pos).prev
        (playStep frm i (evs.getD i defaultEvent) prev pos).pos
      omega

/-- If no event in the scanned window is dispatched, `lastDispatched` leaves
the position unchanged. -/
theorem lastDispatched_none (evs : List Event) (r i : Nat) (pos : Int)
    (h : ∀ j, j < r → dispatched (evs.getD (i + j) defaultEvent) = false) :
    lastDispatched evs r i pos = pos := by
  induction r generalizing i pos with
  | zero => rfl
  | succ n ih =>
    have h0 : dispatched (evs.getD i defaultEvent) = false := by
      have := h 0 (Nat.succ_pos n); simpa using this
    simp only [lastDispatched, h0, Bool.false_eq_true, if_false]
    exact ih (i + 1) pos fun j hj => by
      have := h (j + 1) (by omega); simpa [Nat.add_assoc, Nat.add_comm 1 j] using this

/-- If the last event of the scanned window is dispatched, `lastDispatched`
returns its index. -/
theorem lastDispatched_last (evs : List Event) (r i : Nat) (pos : Int)
    (h : dispatched (evs.getD (i + r) defaultEvent) = true) :
    lastDispatched evs (r + 1) i pos = (i : Int) + r := by
  induction r generalizing i pos with
  | zero =>
    simp only [Nat.add_zero] at h
    have step : lastDispatched evs (0 + 1) i pos
        = if dispatched (evs.getD i defaultEvent) then (i : Int) else pos := rfl
    rw [step, if_pos h]
    simp
  | succ n ih =>
    have step : lastDispatched evs (n + 1 + 1) i pos
        = lastDispatched evs (n + 1) (i + 1)
            (if dispatched (evs.getD i defaultEvent) then (i : Int) else pos) := rfl
    have harg : dispatched (evs.getD (i + 1 + n) defaultEvent) = true := by
      have e : i + 1 + n = i + (n + 1) := by omega
      rw [e]; exact h
    rw [step, ih (i + 1) _ harg]
    push_cast; ring

/-- If some event in the scanned window is dispatched, `lastDispatched` lands
strictly inside the window. -/
theorem lastDispatched_lt (evs : List Event) (r i : Nat) (pos : Int)
    (h : ∃ j, j < r ∧ dispatched (evs.getD (i + j) defaultEvent) = true) :
    lastDispatched evs r i pos < (i : Int) + r := by
  induction r generalizing i pos with
  | zero => rcases h with ⟨j, hj, _⟩; omega
  | succ n ih =>
    by_cases hrest : ∃ j, j < n ∧ dispatched (evs.getD (i + 1 + j) defaultEvent) = true
    · simp only [lastDispatched]
      have := ih (i + 1) (if dispatched (evs.getD i defaultEvent) then (i : Int) else pos) hrest
      push_cast at this ⊢; omega
    · push_neg at hrest
      rcases h with ⟨j, hj, hdisp⟩
      have hj0 : j = 0 := by
        by_contra hne
        have hj1 : j - 1 < n := by omega
        have : dispatched (evs.getD (i + 1 + (j - 1)) defaultEvent) = true := by
          have : i + 1 + (j - 1) = i + j := by omega
          rw [this]; exact hdisp
        have := hrest (j - 1) hj1
        simp_all
      subst hj0
      simp only [Nat.add_zero] at hdisp
      simp only [lastDispatched, hdisp, if_true]
      rw [lastDispatched_none evs n (i + 1) (i : Int)
        (fun j hjn => by
          have := hrest j hjn
          simp_all [Bool.not_eq_true])]
      push_cast; omega

/-- On a valid range request, `playRange` launches the goroutine and its
outcome is the loop outcome under the normalized stop bound. -/
theorem playRange_valid (evs : List Event) (frm toArg : Int) (stop : Nat → Bool)
    (pos0 : Int) (h : ¬ (toArg > (evs.length : Int) ∨ frm < 0)) :
    playRange evs frm toArg stop pos0 =
      ⟨true, effectiveTo evs.length toArg,
        playLoop evs stop frm (effectiveTo evs.length toArg).toNat 0 0 pos0,
        !(playLoop evs stop frm (effectiveTo evs.length toArg).toNat 0 0 pos0).early
          && ((playLoop evs stop frm (effectiveTo evs.length toArg).toNat 0 0 pos0).finalI
              == evs.length),
        (playLoop evs stop frm (effectiveTo evs.length toArg).toNat 0 0 pos0).pos,
        .stopped⟩ := by
  simp only [playRange, if_neg h]

/-- Claim C2 (code-bug evidence): on a one-event stream whose last event was
rendered (`position = 0 = len - 1`), `Forward()` in the `Stopped` state
issues `playRange(2, 2)` while holding `p.Mutex`; that request is out of
range (`to = 2` exceeds the stream length 1), so the guard branch runs and
its `p.Lock()` self-deadlocks on the already-held non-reentrant mutex: the
call never returns and `setState(stateStopped)` is never reached, instead of
the operation completing with the state set to `Stopped` as claimed. -/
theorem claim_C2_boundary_deadlock :
    Forward PState.stopped 0 1 = [PlayerOp.playRangeOp (0 + 2) (0 + 2)] ∧
    ((0 : Int) + 2 > (([defaultEvent] : List Event).length : Int)) ∧
    playRangeLocked [defaultEvent] (0 + 2) (0 + 2) noStop 0 true
      = LockedOutcome.deadlock := by
  decide

/-- Claim C3: `applyDelay` sleeps the quantized value of the raw delay
`d = eventTimestamp - previousAppliedTimestamp` per the table (`d < 10ms → 0`;
`10ms ≤ d ≤ 250ms → d`; `250ms < d < 500ms → 250ms`; `500ms < d < 1000ms →
500ms`; `d ≥ 1000ms → 1000ms`) and then stores the event's raw timestamp,
never the quantized one, as the new previous timestamp. -/
theorem claim_C3_applyDelay_quantization :
    ∀ (prev : Int) (e : Event),
      (applyDelay prev e).2 = e.ms * millisecond ∧
      (applyDelay prev e).1 = quantize (e.ms * millisecond - prev) ∧
      (∀ d : Int,
        (d < 10 * millisecond → quantize d = 0) ∧
        (10 * millisecond ≤ d → d ≤ 250 * millisecond → quantize d = d) ∧
        (250 * millisecond < d → d < 500 * millisecond → quantize d = 250 * millisecond) ∧
        (500 * millisecond < d → d < 1000 * millisecond → quantize d = 500 * millisecond) ∧
        (1000 * millisecond ≤ d → quantize d = 1000 * millisecond)) := by
  intro prev e
  refine ⟨rfl, rfl, ?_⟩
  intro d
  simp only [quantize, millisecond, second]
  refine ⟨?_, ?_, ?_, ?_, ?_⟩ <;> intros <;> split_ifs <;> omega

/-- Witness for C3 at `prev = 0` and a print event at 750 ms: the new
previous timestamp is the raw one, and a raw 750 ms delay sleeps 500 ms. -/
theorem claim_C3_witness :
    (applyDelay 0 evC3).2 = evC3.ms * millisecond ∧
    quantize (750 * millisecond) = 500 * millisecond :=
  ⟨(claim_C3_applyDelay_quantization 0 evC3).1,
   ((claim_C3_applyDelay_quantization 0 evC3).2.2 (750 * millisecond)).2.2.2.1
     (by decide) (by decide)⟩

/-- Claim C9: for every previous timestamp and event, the duration
`applyDelay` passes to `Clock.Sleep` lies in `[0, 1s]`, every negative raw
delay is mapped to 0, and every raw delay is capped at one second. -/
theorem claim_C9_delay_bounds :
    ∀ (prev : Int) (e : Event),
      0 ≤ (applyDelay prev e).1 ∧
      (applyDelay prev e).1 ≤ second ∧
      (e.ms * millisecond - prev < 0 → (applyDelay prev e).1 = 0) := by
  intro prev e
  have hq : ∀ d : Int, 0 ≤ quantize d ∧ quantize d ≤ second ∧ (d < 0 → quantize d = 0) := by
    intro d
    simp only [quantize, millisecond, second]
    split_ifs <;> exact ⟨by omega, by omega, fun _ => by omega⟩
  exact ⟨(hq _).1, (hq _).2.1, fun h => (hq _).2.2 h⟩

/-- Witness for C9 at a previous timestamp two seconds past an event at
100 ms, i.e. an out-of-order (negative) raw delay. -/
theorem claim_C9_witness :
    0 ≤ (applyDelay (2 * second) evC9).1 ∧ (applyDelay (2 * second) evC9).1 = 0 :=
  ⟨(claim_C9_delay_bounds (2 * second) evC9).1,
   (claim_C9_delay_bounds (2 * second) evC9).2.2 (by decide)⟩

/-- Claim C6: `TogglePause()` in the `Playing` state requests `Stopping` and
blocks until `Stopped`; in any other state it launches `playRange(position+1,
0)` — i.e. the range `[position+1, end)`, since a stop bound of 0 normalizes
to the stream length — and blocks until the state becomes `Playing`. -/
theorem claim_C6_togglePause (st : PState) (pos : Int) (len : Nat) :
    (st = PState.playing →
      TogglePause st pos
        = [PlayerOp.setStateOp PState.stopping, PlayerOp.waitUntilOp PState.stopped]) ∧
    (st ≠ PState.playing →
      TogglePause st pos
        = [PlayerOp.playRangeOp (pos + 1) 0, PlayerOp.waitUntilOp PState.playing]) ∧
    effectiveTo len 0 = (len : Int) := by
  refine ⟨fun h => ?_, fun h => ?_, rfl⟩ <;> simp [TogglePause, h]

/-- Witness for C6 in the `Stopped` state at position 5. -/
theorem claim_C6_witness :
    TogglePause PState.stopped 5
      = [PlayerOp.playRangeOp (5 + 1) 0, PlayerOp.waitUntilOp PState.playing] :=
  (claim_C6_togglePause PState.stopped 5 0).2.1 (by decide)

/-- Claim C8: `Forward()` first stops-and-waits when not already `Stopped`,
and issues `playRange(position+2, position+2)` — pacing start point and stop
bound both `position+2` — exactly when `position < len(stream)`. -/
theorem claim_C8_forward (st : PState) (pos : Int) (len : Nat) :
    (st ≠ PState.stopped →
      List.take 2 (Forward st pos len)
        = [PlayerOp.setStateOp PState.stopping, PlayerOp.waitUntilOp PState.stopped]) ∧
    (st = PState.stopped → pos < (len : Int) →
      Forward st pos len = [PlayerOp.playRangeOp (pos + 2) (pos + 2)]) ∧
    (PlayerOp.playRangeOp (pos + 2) (pos + 2) ∈ Forward st pos len ↔ pos < (len : Int)) := by
  refine ⟨fun h => ?_, fun h1 h2 => ?_, ?_⟩
  · simp [Forward, h]
  · simp [Forward, h1, h2]
  · by_cases hlt : pos < (len : Int) <;> by_cases hst : st = PState.stopped <;>
      simp [Forward, hlt, hst]

/-- Witness for C8 in the `Stopped` state at position 0 of a three-event
stream. -/
theorem claim_C8_witness :
    Forward PState.stopped 0 3 = [PlayerOp.playRangeOp (0 + 2) (0 + 2)] :=
  (claim_C8_forward PState.stopped 0 3).2.1 rfl (by decide)

/-- Claim C1: a valid `playRange(from, to)` invocation renders from index 0
regardless of `from` — the uninterrupted trace visits exactly the indices
`0, 1, ..., to'-1` where `to'` is the stream length when the `to` argument is
0 and `to` itself otherwise — and `from` only gates pacing: a delay is slept
exactly at print events whose index has reached `from`, so indices below
`from` replay back-to-back. -/
theorem claim_C1_playRange_renders_from_zero (evs : List Event)
    (frm toArg pos0 : Int) (h1 : 0 ≤ frm) (h2 : toArg ≤ (evs.length : Int)) :
    (playRange evs frm toArg noStop pos0).launched = true ∧
    (playRange evs frm toArg noStop pos0).toEff
      = (if toArg = 0 then (evs.length : Int) else toArg) ∧
    (playRange evs frm toArg noStop pos0).loop.trace.map stepIdx
      = List.range (playRange evs frm toArg noStop pos0).toEff.toNat ∧
    (∀ s ∈ (playRange evs frm toArg noStop pos0).loop.trace, delayOk frm s) := by
  have hg : ¬ (toArg > (evs.length : Int) ∨ frm < 0) := by omega
  rw [playRange_valid evs frm toArg noStop pos0 hg]
  refine ⟨rfl, rfl, ?_, ?_⟩
  · show (playLoop evs noStop frm (effectiveTo evs.length toArg).toNat 0 0 pos0).trace.map
        stepIdx = List.range (effectiveTo evs.length toArg).toNat
    rw [playLoop_noStop_idx, List.range_eq_range']
  · exact playLoop_delayOk evs noStop frm (effectiveTo evs.length toArg).toNat 0 0 pos0

/-- Witness for C1 on a three-event stream with `from = 1`, `to = 0`. -/
theorem claim_C1_witness :
    (playRange evC1 1 0 noStop (-1)).launched = true :=
  (claim_C1_playRange_renders_from_zero evC1 1 0 (-1) (by decide) (by decide)).1

/-- Over any number of `notifyStopped` calls, the once-guard lets the close
run at most one more time than already recorded, and never when it has
already fired. -/
theorem notifyIter_le (n : Nat) : ∀ p : Bool × Nat,
    (notifyIter n p).2 ≤ (if p.1 then p.2 else p.2 + 1) := by
  induction n with
  | zero => intro p; simp only [notifyIter]; split_ifs <;> omega
  | succ m ih =>
    intro p
    simp only [notifyIter]
    rcases p with ⟨b, c⟩
    cases b
    · have := ih (notifyStopped (false, c))
      simp [notifyStopped] at this ⊢
      omega
    · have := ih (notifyStopped (true, c))
      simp [notifyStopped] at this ⊢
      omega

/-- Claim C4: the completion channel is closed at most once over the
player's lifetime, and a playback run calls `notifyStopped` only when its
loop exited normally with the loop index equal to the stream length; a run
interrupted through the stop check, or (for a nonnegative `to` argument) one
whose normalized stop bound falls short of the stream length, as in the
`Rewind` and `Forward` ranges, never does. -/
theorem claim_C4_completion_signal :
    (∀ n : Nat, (notifyIter n (false, 0)).2 ≤ 1) ∧
    (∀ (evs : List Event) (frm toArg : Int) (stop : Nat → Bool) (pos0 : Int),
      ((playRange evs frm toArg stop pos0).firedNow = true →
        (playRange evs frm toArg stop pos0).loop.early = false ∧
        (playRange evs frm toArg stop pos0).loop.finalI = evs.length) ∧
      ((playRange evs frm toArg stop pos0).loop.early = true →
        (playRange evs frm toArg stop pos0).firedNow = false) ∧
      (0 ≤ toArg → (playRange evs frm toArg stop pos0).toEff < (evs.length : Int) →
        (playRange evs frm toArg stop pos0).firedNow = false)) := by
  constructor
  · intro n
    have := notifyIter_le n (false, 0)
    simpa using this
  · intro evs frm toArg stop pos0
    by_cases hg : toArg > (evs.length : Int) ∨ frm < 0
    · simp only [playRange, if_pos hg]
      simp
    · rw [playRange_valid evs frm toArg stop pos0 hg]
      dsimp only
      refine ⟨?_, ?_, ?_⟩
      · intro h
        simp only [Bool.and_eq_true, Bool.not_eq_true', beq_iff_eq] at h
        exact h
      · intro h
        simp [h]
      · intro ht hlt
        have hfin := playLoop_finalI_le evs stop frm
          (effectiveTo evs.length toArg).toNat 0 0 pos0
        have hcnt : (effectiveTo evs.length toArg).toNat < evs.length := by
          simp only [effectiveTo] at hlt ⊢
          split_ifs at hlt ⊢ with h0 <;> omega
        have hne : (playLoop evs stop frm (effectiveTo evs.length toArg).toNat 0 0
            pos0).finalI ≠ evs.length := by omega
        simp [hne]

/-- Witness for C4: after five `notifyStopped` calls on a fresh player the
channel has been closed exactly once, hence at most once. -/
theorem claim_C4_witness : (notifyIter 5 (false, 0)).2 ≤ 1 :=
  claim_C4_completion_signal.1 5

/-- An uninterrupted `playRange(from, 0)` run over the whole stream, at the
player level: the loop walks all of the stream, `position` becomes the last
dispatched index, and the run's deferred `notifyStopped` hits the
once-guard. -/
theorem doPlayRange_full (evs : List Event) (p : Player) (frm : Int)
    (hf : 0 ≤ frm) :
    doPlayRange evs p frm 0 noStop =
      ⟨PState.stopped, lastDispatched evs evs.length 0 p.position, true,
        if p.fired then p.closes else p.closes + 1⟩ := by
  have hg : ¬ ((0 : Int) > (evs.length : Int) ∨ frm < 0) := by omega
  simp only [doPlayRange]
  rw [playRange_valid evs frm 0 noStop p.position hg]
  have hcnt : (effectiveTo evs.length 0).toNat = evs.length := by
    simp [effectiveTo]
  dsimp only
  rw [hcnt, playLoop_noStop_early, playLoop_noStop_finalI, playLoop_noStop_pos]
  simp only [Nat.zero_add, beq_self_eq_true, Bool.not_false, Bool.true_and,
    Bool.and_self, if_true, notifyStopped]
  rcases p with ⟨st, pos, f, c⟩
  cases f <;> simp

/-- Claim C5 counterexample: on a non-empty stream whose single event has an
unrecognized type, `Play()` runs to completion and fires the completion
signal, yet `position` stays at `-1`, not `len(stream) - 1 = 0`: the loop's
`default: continue` branch skips the `position = i` update. -/
theorem claim_C5_counterexample :
    (doPlayRange evC5 ⟨PState.stopped, -1, false, 0⟩ 0 0 noStop).closes = 1 ∧
    ¬ ((doPlayRange evC5 ⟨PState.stopped, -1, false, 0⟩ 0 0 noStop).position
        = (evC5.length : Int) - 1) := by
  decide

/-- Claim C5 as amended: for every non-empty stream whose final event is
dispatched (a print event, or a resize / session-start event with a
well-formed size), an uninterrupted `Play()` on a fresh player ends with
`position = len(stream) - 1`, the completion signal fired exactly once, and
the state `Stopped`. -/
theorem claim_C5_play_completion (evs : List Event) (h1 : 0 < evs.length)
    (h2 : dispatched (evs.getD (evs.length - 1) defaultEvent) = true) :
    (doPlayRange evs ⟨PState.stopped, -1, false, 0⟩ 0 0 noStop).position
      = (evs.length : Int) - 1 ∧
    (doPlayRange evs ⟨PState.stopped, -1, false, 0⟩ 0 0 noStop).closes = 1 ∧
    (doPlayRange evs ⟨PState.stopped, -1, false, 0⟩ 0 0 noStop).state
      = PState.stopped := by
  rw [doPlayRange_full evs ⟨PState.stopped, -1, false, 0⟩ 0 le_rfl]
  refine ⟨?_, rfl, rfl⟩
  obtain ⟨m, hm⟩ : ∃ m, evs.length = m + 1 := ⟨evs.length - 1, by omega⟩
  have h2' : dispatched (evs.getD (0 + m) defaultEvent) = true := by
    have : evs.length - 1 = 0 + m := by omega
    rw [← this]; exact h2
  have := lastDispatched_last evs m 0 (-1) h2'
  dsimp only
  rw [hm, this]
  push_cast
  ring

/-- Witness for the amended C5 on a one-print-event stream. -/
theorem claim_C5_witness :
    (doPlayRange evC5w ⟨PState.stopped, -1, false, 0⟩ 0 0 noStop).position
      = (evC5w.length : Int) - 1 :=
  (claim_C5_play_completion evC5w (by decide) (by decide)).1

/-- Claim C7 counterexample: with the stream (unrecognized, print) and
`position = 1`, `Rewind()` issues `playRange(0, 1)`, but the replay of the
single unrecognized event updates nothing, so after it completes `position`
is still 1 — it did not decrease. -/
theorem claim_C7_counterexample :
    Rewind PState.stopped 1 = [PlayerOp.playRangeOp 0 1] ∧
    (doPlayRange evC7 ⟨PState.stopped, 1, true, 1⟩ 0 1 noStop).position = 1 := by
  decide

/-- Claim C7 as amended: `Rewind()` first, if the state is not `Stopped`,
requests `Stopping` and blocks until `Stopped`; it issues
`playRange(position-1, position)` iff `position > 0`; the replay paces only
print events from index `position-1` on (everything earlier replays with no
delay); and if at least one event at an index below `position` is dispatched,
the completed replay leaves `position` decreased by at least one. -/
theorem claim_C7_rewind (st : PState) (pos : Int) (evs : List Event)
    (f : Bool) (c : Nat) :
    (st ≠ PState.stopped →
      List.take 2 (Rewind st pos)
        = [PlayerOp.setStateOp PState.stopping, PlayerOp.waitUntilOp PState.stopped]) ∧
    (PlayerOp.playRangeOp (pos - 1) pos ∈ Rewind st pos ↔ 0 < pos) ∧
    (∀ s ∈ (playRange evs (pos - 1) pos noStop pos).loop.trace, delayOk (pos - 1) s) ∧
    (0 < pos → pos ≤ (evs.length : Int) →
      (∃ j : Nat, (j : Int) < pos ∧ dispatched (evs.getD j defaultEvent) = true) →
      (doPlayRange evs ⟨PState.stopped, pos, f, c⟩ (pos - 1) pos noStop).position
        < pos) := by
  refine ⟨fun h => ?_, ?_, ?_, ?_⟩
  · simp only [Rewind, if_pos h]
    by_cases hp : pos > 0 <;> simp [hp]
  · by_cases hp : pos > 0 <;> by_cases hst : st = PState.stopped <;>
      simp [Rewind, hp, hst]
  · by_cases hg : pos > (evs.length : Int) ∨ pos - 1 < 0
    · simp only [playRange, if_pos hg]
      intro s hs
      simp at hs
    · rw [playRange_valid evs (pos - 1) pos noStop pos hg]
      exact playLoop_delayOk evs noStop (pos - 1)
        (effectiveTo evs.length pos).toNat 0 0 pos
  · intro hpos hlen hex
    have hg : ¬ (pos > (evs.length : Int) ∨ pos - 1 < 0) := by omega
    have hcnt : (effectiveTo evs.length pos).toNat = pos.toNat := by
      simp [effectiveTo, show pos ≠ 0 by omega]
    have hlast : lastDispatched evs pos.toNat 0 pos < (0 : Int) + (pos.toNat : Int) := by
      apply lastDispatched_lt
      rcases hex with ⟨j, hj, hd⟩
      exact ⟨j, by omega, by simpa using hd⟩
    simp only [doPlayRange]
    rw [playRange_valid evs (pos - 1) pos noStop pos hg]
    dsimp only
    rw [hcnt, playLoop_noStop_pos]
    split <;> (dsimp only; omega)

/-- Witness for the amended C7 on a two-print-event stream at position 1. -/
theorem claim_C7_witness :
    (doPlayRange evC7w ⟨PState.stopped, 1, true, 1⟩ (1 - 1) 1 noStop).position < 1 :=
  (claim_C7_rewind PState.stopped 1 evC7w true 1).2.2.2 (by decide) (by decide)
    ⟨0, by decide, by decide⟩

/-- Claim C10: `TogglePause()` on a player that already rendered the whole
stream (`Stopped`, `position = len - 1`, completion already fired) is not a
no-op: it issues `playRange(len, 0)`, a full replay of the entire stream in
which no step sleeps any pacing delay (the pacing start point `len` is
beyond every index), after which the state is `Stopped` again and the
already-closed completion channel is not closed a second time. -/
theorem claim_C10_togglePause_after_completion (evs : List Event) :
    TogglePause PState.stopped ((evs.length : Int) - 1)
      = [PlayerOp.playRangeOp ((evs.length : Int) - 1 + 1) 0,
         PlayerOp.waitUntilOp PState.playing] ∧
    ((evs.length : Int) - 1 + 1 = (evs.length : Int)) ∧
    (playRange evs (evs.length : Int) 0 noStop ((evs.length : Int) - 1)).launched
      = true ∧
    ((playRange evs (evs.length : Int) 0 noStop
        ((evs.length : Int) - 1)).loop.trace.map stepIdx = List.range evs.length) ∧
    (∀ s ∈ (playRange evs (evs.length : Int) 0 noStop
        ((evs.length : Int) - 1)).loop.trace, stepDelay s = none) ∧
    (doPlayRange evs ⟨PState.stopped, (evs.length : Int) - 1, true, 1⟩
        (evs.length : Int) 0 noStop).state = PState.stopped ∧
    (doPlayRange evs ⟨PState.stopped, (evs.length : Int) - 1, true, 1⟩
        (evs.length : Int) 0 noStop).closes = 1 := by
  have hg : ¬ ((0 : Int) > (evs.length : Int) ∨ (evs.length : Int) < 0) := by omega
  have hcnt : (effectiveTo evs.length 0).toNat = evs.length := by
    simp [effectiveTo]
  refine ⟨by simp [TogglePause], by ring, ?_, ?_, ?_, ?_, ?_⟩
  · rw [playRange_valid evs (evs.length : Int) 0 noStop ((evs.length : Int) - 1) hg]
  · rw [playRange_valid evs (evs.length : Int) 0 noStop ((evs.length : Int) - 1) hg]
    dsimp only
    rw [hcnt, playLoop_noStop_idx, List.range_eq_range']
  · rw [playRange_valid evs (evs.length : Int) 0 noStop ((evs.length : Int) - 1) hg]
    dsimp only
    rw [hcnt]
    intro s hs
    have hidx : stepIdx s ∈ (playLoop evs noStop (evs.length : Int) evs.length 0 0
        ((evs.length : Int) - 1)).trace.map stepIdx := List.mem_map_of_mem stepIdx hs
    rw [playLoop_noStop_idx] at hidx
    have hlt : stepIdx s < evs.length := by
      have := List.mem_range'_1.mp hidx
      omega
    have hok := playLoop_delayOk evs noStop (evs.length : Int) evs.length 0 0
      ((evs.length : Int) - 1) s hs
    rcases hd : stepDelay s with _ | d
    · rfl
    · exfalso
      simp only [delayOk] at hok
      have h1 : (stepDelay s).isSome = true := by rw [hd]; rfl
      have h2 := (hok.mp h1).2
      omega
  · rw [doPlayRange_full evs ⟨PState.stopped, (evs.length : Int) - 1, true, 1⟩
      (evs.length : Int) (by omega)]
  · rw [doPlayRange_full evs ⟨PState.stopped, (evs.length : Int) - 1, true, 1⟩
      (evs.length : Int) (by omega)]
    simp

/-- Witness for C10 on a two-print-event stream. -/
theorem claim_C10_witness :
    (doPlayRange evC10 ⟨PState.stopped, (evC10.length : Int) - 1, true, 1⟩
        (evC10.length : Int) 0 noStop).closes = 1 :=
  (claim_C10_togglePause_after_completion evC10).2.2.2.2.2.2

end Teleport
